import Mathlib

/-!
Verification of the cached-collections library: a read-through cache for
datasets whose authoritative copy lives in a shared key-value store (Redis).
Each dataset keeps a local snapshot plus a revision counter held in the
store; the snapshot is refreshed when the local revision is stale, bounded
by a minimum recheck interval.  A derived-view layer recomputes a value
whenever the wrapped dataset's revision changes, and a descriptor attaches
such views lazily to an owning instance.

The embedding is a shallow state-passing model of `cached_collections.py`:
  * the store is modelled per namespace by its two keys (data and revision);
  * every operation returns the new instance state, the new store state, a
    log of store round-trips, and an `Except` carrying a Python exception;
  * partially-applied mutations are preserved: on error the returned state
    is exactly what the Python instance holds when the exception propagates;
  * store reachability is an explicit boolean; an unreachable store raises
    `redisUnavailable` on any round-trip (Redis `ConnectionError`);
  * the pickle codec and the `load()` hook are injected parameters;
  * wall-clock time is an explicit integer parameter `now`.
-/

namespace CachedCollections

/-- One store round-trip, as issued by the source: a `get` of the revision
key, a `get` of the data key, the atomic `set`+`incr` pipeline of `push`,
or the `delete`+`delete` pipeline of `purge`. -/
inductive StoreOp where
  | getRev
  | getData
  | pipeSetIncr
  | pipeDelete
  deriving DecidableEq, Repr

/-- Python exceptions that the modelled code can raise: Redis
`ConnectionError`, an unpickling failure in `pickle.loads`, a `TypeError`
(e.g. subscripting `None` or unpickling `None`), and a `KeyError` from a
mapping lookup. -/
inductive CacheError where
  | redisUnavailable
  | unpickleError
  | typeError
  | keyError
  deriving DecidableEq, Repr

/-- The injected serialization codec (`pickle.dumps` / `pickle.loads`);
`loads` may fail on a corrupt payload. -/
structure Codec (α B : Type) where
  dumps : α → B
  loads : B → Except Unit α

/-- The two store keys of one `(name, version)` namespace: the value at the
data key and the integer value at the revision key (`none` = key absent). -/
structure Store (B : Type) where
  data : Option B
  rev : Option Int
  deriving DecidableEq, Repr

/-- Redis `INCR` on the revision key: creates the key at 1 when absent,
otherwise adds one; returns the post-increment value. -/
def Store.incrRev {B : Type} (st : Store B) : Int × Store B :=
  match st.rev with
  | none => (1, { st with rev := some 1 })
  | some r => (r + 1, { st with rev := some (r + 1) })

/-- The per-process state of a `Cached` instance: `name`/`version` identity,
the local `revision` (`None` = never synchronized), the `_cache` snapshot,
the `_last_checked` stamp and the configured `_check_interval`. -/
structure CachedState (α : Type) where
  name : String
  version : String
  revision : Option Int
  checkInterval : Int
  cache : Option α
  lastChecked : Option Int
  deriving DecidableEq, Repr

/-- The data key derived in `Cached.__init__`. -/
def data_key (name version : String) : String :=
  "cached." ++ name ++ "." ++ version ++ ".data"

/-- The revision key derived in `Cached.__init__`. -/
def revision_key (name version : String) : String :=
  "cached." ++ name ++ "." ++ version ++ ".revision"

/-- `Cached.__init__`: a freshly constructed, unsynchronized instance. -/
def mkCached (α : Type) (name version : String) (checkInterval : Int) : CachedState α :=
  { name := name
    version := version
    revision := none
    checkInterval := checkInterval
    cache := none
    lastChecked := none }

/-- The result of one instance operation: the instance state afterwards, the
store afterwards, the list of store round-trips issued, and the outcome
(`ok` or the exception that propagates). -/
abbrev CResult (α B : Type) := CachedState α × Store B × List StoreOp × Except CacheError Unit

/-- `Cached.push`: compute fresh content via `load()` (the value `d` here),
pickle it, and in one atomic pipeline set the data key and increment the
revision key; adopt the post-increment counter as the local revision and the
fresh content as the local snapshot.  An unreachable store raises from
`pipe.execute()` with no assignment performed. -/
def Cached.push {α B : Type} (codec : Codec α B) (d : α) (avail : Bool)
    (s : CachedState α) (st : Store B) : CResult α B :=
  let raw := codec.dumps d
  if avail then
    let out := Store.incrRev { st with data := some raw }
    ({ s with revision := some out.1, cache := some d },
     out.2, [StoreOp.pipeSetIncr], Except.ok ())
  else
    (s, st, [StoreOp.pipeSetIncr], Except.error CacheError.redisUnavailable)

/-- `Cached.pull`: read the revision key; if absent, bootstrap by pushing the
initial revision.  Otherwise read the data key, unpickle it and adopt the
store's revision and content.  `pickle.loads(None)` (data key absent) raises
a `TypeError`; a corrupt payload raises an unpickling error; in both cases
no local assignment has happened yet. -/
def Cached.pull {α B : Type} (codec : Codec α B) (d : α) (avail : Bool)
    (s : CachedState α) (st : Store B) : CResult α B :=
  if avail then
    match st.rev with
    | none =>
        let out := Cached.push codec d avail s st
        (out.1, out.2.1, StoreOp.getRev :: out.2.2.1, out.2.2.2)
    | some revision =>
        match st.data with
        | none =>
            (s, st, [StoreOp.getRev, StoreOp.getData], Except.error CacheError.typeError)
        | some raw =>
            match codec.loads raw with
            | Except.error _ =>
                (s, st, [StoreOp.getRev, StoreOp.getData], Except.error CacheError.unpickleError)
            | Except.ok v =>
                ({ s with cache := some v, revision := some revision }, st,
                 [StoreOp.getRev, StoreOp.getData], Except.ok ())
  else
    (s, st, [StoreOp.getRev], Except.error CacheError.redisUnavailable)

/-- `Cached.purge`: delete both store keys in one pipeline and reset the
local revision, snapshot and last-checked stamp to the unsynchronized
state. -/
def Cached.purge {α B : Type} (avail : Bool) (s : CachedState α) (st : Store B) : CResult α B :=
  if avail then
    ({ s with revision := none, cache := none, lastChecked := none },
     { st with data := none, rev := none }, [StoreOp.pipeDelete], Except.ok ())
  else
    (s, st, [StoreOp.pipeDelete], Except.error CacheError.redisUnavailable)

/-- The tail of `Cached._maybe_pull` after a successful `self.pull()`:
stamp `_last_checked`; when `pull` raises, the stamp assignment is never
reached and the exception propagates. -/
def Cached.pullStamp {α B : Type} (codec : Codec α B) (d : α) (avail : Bool) (now : Int)
    (s : CachedState α) (st : Store B) : CResult α B :=
  let out := Cached.pull codec d avail s st
  (match out.2.2.2 with
   | Except.ok _ => { out.1 with lastChecked := some now }
   | Except.error _ => out.1,
   out.2.1, out.2.2.1, out.2.2.2)

/-- The body of `Cached._maybe_pull` past the recheck-interval throttle.
When the instance is synchronized it reads only the revision key: a Redis
`ConnectionError` there is caught and the check aborts silently; a present
store revision at most the local one stamps `_last_checked` and returns;
otherwise (revision key missing or a greater revision) a full `pull` runs,
followed by the stamp. -/
def Cached.maybePullBody {α B : Type} (codec : Codec α B) (d : α) (avail : Bool) (now : Int)
    (s : CachedState α) (st : Store B) : CResult α B :=
  match s.revision with
  | some r =>
      if avail then
        match st.rev with
        | some v =>
            if v ≤ r then
              ({ s with lastChecked := some now }, st, [StoreOp.getRev], Except.ok ())
            else
              let out := Cached.pullStamp codec d avail now s st
              (out.1, out.2.1, StoreOp.getRev :: out.2.2.1, out.2.2.2)
        | none =>
            let out := Cached.pullStamp codec d avail now s st
            (out.1, out.2.1, StoreOp.getRev :: out.2.2.1, out.2.2.2)
      else
        (s, st, [StoreOp.getRev], Except.ok ())
  | none => Cached.pullStamp codec d avail now s st

/-- `Cached._maybe_pull`: the staleness check invoked by every read.  If
`_last_checked` is within `_check_interval` of `now`, return immediately
without contacting the store; otherwise run the check body. -/
def Cached.maybePull {α B : Type} (codec : Codec α B) (d : α) (avail : Bool) (now : Int)
    (s : CachedState α) (st : Store B) : CResult α B :=
  match s.lastChecked with
  | some t =>
      if now - t < s.checkInterval then (s, st, [], Except.ok ())
      else Cached.maybePullBody codec d avail now s st
  | none => Cached.maybePullBody codec d avail now s st

/-- `CachedMappingMixin.__getitem__`: run the staleness check, then index the
local snapshot.  `lookup` is the snapshot's own indexing (`self._cache[key]`):
`none` raises a `KeyError`; a `None` snapshot raises a `TypeError`. -/
def Cached.getitem {α B K V : Type} (codec : Codec α B) (d : α) (lookup : α → K → Option V)
    (avail : Bool) (now : Int) (key : K) (s : CachedState α) (st : Store B) :
    CachedState α × Store B × List StoreOp × Except CacheError V :=
  let out := Cached.maybePull codec d avail now s st
  match out.2.2.2 with
  | Except.error e => (out.1, out.2.1, out.2.2.1, Except.error e)
  | Except.ok _ =>
      match out.1.cache with
      | none => (out.1, out.2.1, out.2.2.1, Except.error CacheError.typeError)
      | some c =>
          match lookup c key with
          | none => (out.1, out.2.1, out.2.2.1, Except.error CacheError.keyError)
          | some v => (out.1, out.2.1, out.2.2.1, Except.ok v)

/-- A sequence of consecutive `push` calls, one per `load()` result in `ds`,
against a reachable store. -/
def Cached.pushIter {α B : Type} (codec : Codec α B) (ds : List α)
    (s : CachedState α) (st : Store B) : CachedState α × Store B :=
  match ds with
  | [] => (s, st)
  | d :: rest =>
      let out := Cached.push codec d true s st
      Cached.pushIter codec rest out.1 out.2.1

/-- A sequence of `__getitem__` reads, one per `(now, key)` pair, collecting
every store round-trip issued along the way. -/
def Cached.getitemFold {α B K V : Type} (codec : Codec α B) (d : α)
    (lookup : α → K → Option V) (avail : Bool) (reads : List (Int × K))
    (s : CachedState α) (st : Store B) : CachedState α × Store B × List StoreOp :=
  match reads with
  | [] => (s, st, [])
  | p :: rest =>
      let out := Cached.getitem codec d lookup avail p.1 p.2 s st
      let tail := Cached.getitemFold codec d lookup avail rest out.1 out.2.1
      (tail.1, tail.2.1, out.2.2.1 ++ tail.2.2)

/-- The per-process state of a `CacheView`: `_revision` is the source
revision captured when the view was last computed, where `none` encodes the
`undefined` sentinel (a fresh object equal to nothing), and `some r` a
captured source revision `r` (itself an `Option Int`); `_cache` is the
computed snapshot. -/
structure CacheViewState (β : Type) where
  revision : Option (Option Int)
  cache : Option β
  deriving DecidableEq, Repr

/-- `CacheView.__init__`: sentinel revision, no snapshot. -/
def mkCacheView (β : Type) : CacheViewState β :=
  { revision := none, cache := none }

/-- `CacheView._maybe_pull`: first run the wrapped collection's own staleness
check (an exception there propagates); then, when the captured revision
differs from the source's current revision (the `undefined` sentinel differs
from everything), recompute the snapshot via the `load(source)` hook `vload`
and capture the source's now-current revision.  The `Nat` component counts
how many times `vload` was invoked. -/
def CacheView.maybePull {α B β : Type} (codec : Codec α B) (d : α)
    (vload : CachedState α → β) (avail : Bool) (now : Int)
    (v : CacheViewState β) (s : CachedState α) (st : Store B) :
    CacheViewState β × CachedState α × Store B × Nat × Except CacheError Unit :=
  let out := Cached.maybePull codec d avail now s st
  match out.2.2.2 with
  | Except.error e => (v, out.1, out.2.1, 0, Except.error e)
  | Except.ok _ =>
      if v.revision = some out.1.revision then
        (v, out.1, out.2.1, 0, Except.ok ())
      else
        ({ revision := some out.1.revision, cache := some (vload out.1) },
         out.1, out.2.1, 1, Except.ok ())

/-- A sequence of view reads, one per time in `times`, summing the number of
`load(source)` invocations. -/
def CacheView.readFold {α B β : Type} (codec : Codec α B) (d : α)
    (vload : CachedState α → β) (avail : Bool) (times : List Int)
    (v : CacheViewState β) (s : CachedState α) (st : Store B) :
    CacheViewState β × CachedState α × Store B × Nat :=
  match times with
  | [] => (v, s, st, 0)
  | now :: rest =>
      let out := CacheView.maybePull codec d vload avail now v s st
      let tail := CacheView.readFold codec d vload avail rest out.1 out.2.1 out.2.2.1
      (tail.1, tail.2.1, tail.2.2.1, out.2.2.2.1 + tail.2.2.2)

/-- A Derived View object as constructed by the view descriptor: its `load`
hook closes over the owning instance (recorded by that instance's identity
`boundTo`), and it carries a `CacheViewState`. -/
structure ViewObj (β : Type) where
  boundTo : Nat
  state : CacheViewState β
  deriving DecidableEq, Repr

/-- An owning instance as seen by the view descriptor: its object identity
and its `__dict__` slot under the descriptor's name. -/
structure OwnerState (β : Type) where
  id : Nat
  viewSlot : Option (ViewObj β)
  deriving DecidableEq, Repr

/-- `_view_descriptor.__get__` on an instance: when the instance `__dict__`
already holds a view under the descriptor's name, return it; otherwise
construct a fresh view bound to the instance, store it in the instance
`__dict__`, and return it.  The boolean reports whether a view was
constructed by this access. -/
def ViewDescriptor.get {β : Type} (o : OwnerState β) : ViewObj β × OwnerState β × Bool :=
  match o.viewSlot with
  | some v => (v, o, false)
  | none =>
      let v : ViewObj β := { boundTo := o.id, state := mkCacheView β }
      (v, { o with viewSlot := some v }, true)

/-- `k + 1` consecutive descriptor accesses on the same instance, returning
the view yielded by the last access and the final instance state. -/
def ViewDescriptor.getIter {β : Type} (o : OwnerState β) : Nat → ViewObj β × OwnerState β
  | 0 =>
      let out := ViewDescriptor.get o
      (out.1, out.2.1)
  | k + 1 =>
      let out := ViewDescriptor.get o
      ViewDescriptor.getIter out.2.1 k

/-- The spec's state invariant: the local snapshot is present exactly when
the local revision is. -/
def stateInv {α : Type} (s : CachedState α) : Prop :=
  s.cache ≠ none ↔ s.revision ≠ none

/-- Concrete value type for witnesses: a small association "mapping". -/
abbrev TVal := List (String × Int)

/-- Concrete byte type for witnesses: `none` is a corrupt payload. -/
abbrev TBytes := Option TVal

/-- Concrete codec for witnesses: `loads` fails exactly on the corrupt
payload `none`. -/
def testCodec : Codec TVal TBytes :=
  { dumps := fun v => some v
    loads := fun b =>
      match b with
      | some v => Except.ok v
      | none => Except.error () }

/-- Association-list indexing, the `lookup` used in witnesses. -/
def tLookup (m : TVal) (k : String) : Option Int :=
  match m with
  | [] => none
  | p :: rest => if p.1 = k then some p.2 else tLookup rest k

/-- A fresh `("prices", "v1")` instance for witnesses. -/
def sampleState : CachedState TVal := mkCached TVal "prices" "v1" 10

/-- An empty store namespace for witnesses. -/
def emptyStore : Store TBytes := { data := none, rev := none }

/-- A `load()` result for witnesses. -/
def sampleData : TVal := [("AAPL", 100)]

/-- A store namespace already holding revision 3 and a well-formed payload,
for witnesses. -/
def loadedStore : Store TBytes := { data := some (some sampleData), rev := some 3 }

/-- A store namespace at revision 4 (ahead of a local revision 3), for
witnesses. -/
def aheadStore : Store TBytes := { data := some (some [("AAPL", 101)]), rev := some 4 }

/-- A store namespace whose data payload is corrupt (`loads` fails), for
witnesses. -/
def corruptStore : Store TBytes := { data := some none, rev := some 3 }

/-- An instance synchronized at revision 3 with a stamp at time 0, for
witnesses. -/
def syncState : CachedState TVal :=
  { sampleState with revision := some 3, cache := some sampleData, lastChecked := some 0 }

/-- One reachable `push` leaves the store revision, and the adopted local
revision, at one more than the prior store revision (1 when the key was
absent). -/
theorem push_rev {α B : Type} (codec : Codec α B) (d : α)
    (s : CachedState α) (st : Store B) :
    (Cached.push codec d true s st).2.1.rev = some (st.rev.getD 0 + 1) ∧
    (Cached.push codec d true s st).1.revision = some (st.rev.getD 0 + 1) := by
  cases h : st.rev <;> simp [Cached.push, Store.incrRev, h]

/-- After a nonempty sequence of reachable pushes, the local revision and
the store revision both equal the prior store revision plus the number of
pushes. -/
theorem pushIter_rev {α B : Type} (codec : Codec α B) (ds : List α) :
    ∀ (s : CachedState α) (st : Store B), ds ≠ [] →
      (Cached.pushIter codec ds s st).1.revision = some (st.rev.getD 0 + ds.length) ∧
      (Cached.pushIter codec ds s st).2.rev = some (st.rev.getD 0 + ds.length) := by
  induction ds with
  | nil => intro s st h; exact absurd rfl h
  | cons d rest ih =>
      intro s st _
      have hpush := push_rev codec d s st
      by_cases hr : rest = []
      · subst hr
        have h1 : Cached.pushIter codec [d] s st =
            ((Cached.push codec d true s st).1, (Cached.push codec d true s st).2.1) := rfl
        rw [h1]
        simpa using ⟨hpush.2, hpush.1⟩
      · have hih := ih (Cached.push codec d true s st).1 (Cached.push codec d true s st).2.1 hr
        rw [hpush.1] at hih
        have h1 : Cached.pushIter codec (d :: rest) s st =
            Cached.pushIter codec rest (Cached.push codec d true s st).1
              (Cached.push codec d true s st).2.1 := rfl
        rw [h1, hih.1, hih.2]
        constructor <;> · congr 1; simp [Option.getD]; ring

/-- Claim C1: over an initially-empty store namespace, `push` computes
content via `load()`, writes the data key and increments the revision key
in one atomic pipeline, sets the local snapshot to the computed content and
adopts the post-increment counter as the local revision; each push yields
one more than the prior store revision (1 when none existed), and after the
Nth consecutive push the local revision equals N, the first push yielding
revision 1. -/
theorem C1_push_revisions {α B : Type} (codec : Codec α B) (ds : List α) (d : α)
    (s : CachedState α) (st : Store B) (hrev : st.rev = none) (hne : ds ≠ []) :
    (∀ (e : α) (s2 : CachedState α) (st2 : Store B),
       (Cached.push codec e true s2 st2).2.1.data = some (codec.dumps e) ∧
       (Cached.push codec e true s2 st2).2.1.rev = some (st2.rev.getD 0 + 1) ∧
       (Cached.push codec e true s2 st2).1.revision = (Cached.push codec e true s2 st2).2.1.rev ∧
       (Cached.push codec e true s2 st2).1.cache = some e ∧
       (Cached.push codec e true s2 st2).2.2.1 = [StoreOp.pipeSetIncr] ∧
       (Cached.push codec e true s2 st2).2.2.2 = Except.ok ()) ∧
    (Cached.push codec d true s st).1.revision = some 1 ∧
    (Cached.pushIter codec ds s st).1.revision = some (ds.length : Int) := by
  refine ⟨?_, ?_, ?_⟩
  · intro e s2 st2
    cases h : st2.rev <;> simp [Cached.push, Store.incrRev, h]
  · simp [Cached.push, Store.incrRev, hrev]
  · have h := (pushIter_rev codec ds s st hne).1
    rw [hrev] at h
    simpa using h

/-- Witness for C1 at a concrete two-push run from an empty namespace. -/
theorem C1_push_revisions_witness :
    (emptyStore.rev = none ∧ ([sampleData, sampleData] : List TVal) ≠ []) ∧
    (Cached.push testCodec sampleData true sampleState emptyStore).1.revision = some 1 ∧
    (Cached.pushIter testCodec [sampleData, sampleData] sampleState emptyStore).1.revision =
      some 2 := by
  have h := C1_push_revisions testCodec [sampleData, sampleData] sampleData sampleState
    emptyStore rfl (by simp)
  exact ⟨⟨rfl, by simp⟩, h.2.1, by simpa using h.2.2⟩

/-- Claim C2: `pull` on a namespace whose revision key is absent performs a
`push` instead (bootstrap), so the first pull on a never-written namespace
yields revision 1 and a snapshot equal to the result of `load()`; when the
revision key is present, `pull` reads the data key, deserializes it, and
adopts the store's current revision and content as the local state. -/
theorem C2_pull_bootstrap {α B : Type} (codec : Codec α B) (d : α)
    (s : CachedState α) (st : Store B) :
    (st.rev = none →
       Cached.pull codec d true s st =
         ((Cached.push codec d true s st).1, (Cached.push codec d true s st).2.1,
          StoreOp.getRev :: (Cached.push codec d true s st).2.2.1,
          (Cached.push codec d true s st).2.2.2) ∧
       (Cached.pull codec d true s st).1.revision = some 1 ∧
       (Cached.pull codec d true s st).1.cache = some d) ∧
    (∀ (r : Int) (raw : B) (v : α), st.rev = some r → st.data = some raw →
       codec.loads raw = Except.ok v →
       Cached.pull codec d true s st =
         ({ s with cache := some v, revision := some r }, st,
          [StoreOp.getRev, StoreOp.getData], Except.ok ())) := by
  constructor
  · intro h
    refine ⟨by simp [Cached.pull, h], ?_, ?_⟩ <;>
      simp [Cached.pull, Cached.push, Store.incrRev, h]
  · intro r raw v hr hd hl
    simp [Cached.pull, hr, hd, hl]

/-- Witness for C2: bootstrap on the empty namespace and a plain pull from a
loaded namespace at revision 3. -/
theorem C2_pull_bootstrap_witness :
    (emptyStore.rev = none ∧
     (Cached.pull testCodec sampleData true sampleState emptyStore).1.revision = some 1 ∧
     (Cached.pull testCodec sampleData true sampleState emptyStore).1.cache =
       some sampleData) ∧
    (loadedStore.rev = some 3 ∧ loadedStore.data = some (some sampleData) ∧
     testCodec.loads (some sampleData) = Except.ok sampleData ∧
     Cached.pull testCodec sampleData true sampleState loadedStore =
       ({ sampleState with cache := some sampleData, revision := some 3 }, loadedStore,
        [StoreOp.getRev, StoreOp.getData], Except.ok ())) := by
  have h1 := (C2_pull_bootstrap testCodec sampleData sampleState emptyStore).1 rfl
  have h2 := (C2_pull_bootstrap testCodec sampleData sampleState loadedStore).2
    3 (some sampleData) sampleData rfl rfl rfl
  exact ⟨⟨rfl, h1.2.1, h1.2.2⟩, rfl, rfl, rfl, h2⟩

/-- When the recheck interval has elapsed (or no check was ever stamped),
the staleness check runs its body. -/
theorem maybePull_due {α B : Type} (codec : Codec α B) (d : α) (avail : Bool) (now : Int)
    (s : CachedState α) (st : Store B)
    (hdue : ∀ t, s.lastChecked = some t → s.checkInterval ≤ now - t) :
    Cached.maybePull codec d avail now s st = Cached.maybePullBody codec d avail now s st := by
  unfold Cached.maybePull
  cases h : s.lastChecked with
  | none => rfl
  | some t =>
      have := hdue t h
      simp [show ¬ now - t < s.checkInterval by omega]

/-- Within the recheck interval of the last stamp, the staleness check
returns immediately: no store round-trip, no state change, no exception. -/
theorem maybePull_throttled {α B : Type} (codec : Codec α B) (d : α) (avail : Bool)
    (now : Int) (s : CachedState α) (st : Store B) (t : Int)
    (h : s.lastChecked = some t) (hlt : now - t < s.checkInterval) :
    Cached.maybePull codec d avail now s st = (s, st, [], Except.ok ()) := by
  unfold Cached.maybePull
  simp [h, hlt]

/-- On a synchronized instance, an unreachable store makes the staleness
check abort silently: the state and store are unchanged and no exception is
raised. -/
theorem maybePull_unavailable {α B : Type} (codec : Codec α B) (d : α) (now : Int)
    (r : Int) (s : CachedState α) (st : Store B) (hsync : s.revision = some r) :
    ∃ ops, Cached.maybePull codec d false now s st = (s, st, ops, Except.ok ()) := by
  unfold Cached.maybePull
  cases h : s.lastChecked with
  | none => exact ⟨[StoreOp.getRev], by simp [Cached.maybePullBody, hsync]⟩
  | some t =>
      by_cases hlt : now - t < s.checkInterval
      · exact ⟨[], by simp [hlt]⟩
      · exact ⟨[StoreOp.getRev], by simp [hlt, Cached.maybePullBody, hsync]⟩

/-- A `__getitem__` read changes the instance state, the store and the
round-trip log exactly as its staleness check does. -/
theorem getitem_effects {α B K V : Type} (codec : Codec α B) (d : α)
    (lookup : α → K → Option V) (avail : Bool) (now : Int) (key : K)
    (s : CachedState α) (st : Store B) :
    (Cached.getitem codec d lookup avail now key s st).1 =
      (Cached.maybePull codec d avail now s st).1 ∧
    (Cached.getitem codec d lookup avail now key s st).2.1 =
      (Cached.maybePull codec d avail now s st).2.1 ∧
    (Cached.getitem codec d lookup avail now key s st).2.2.1 =
      (Cached.maybePull codec d avail now s st).2.2.1 := by
  unfold Cached.getitem
  cases hres : (Cached.maybePull codec d avail now s st).2.2.2 with
  | error e => simp [hres]
  | ok u =>
      simp only [hres]
      cases hc : (Cached.maybePull codec d avail now s st).1.cache with
      | none => simp
      | some c => cases hk : lookup c key <;> simp [hk]

/-- Claim C3: for a synchronized instance whose staleness check reaches the
store, a present store revision at most the local one stamps `_last_checked`
and returns with the local revision and snapshot unchanged, while a missing
or greater store revision triggers a full `pull`, followed by the
`_last_checked` stamp exactly when that pull succeeds. -/
theorem C3_staleness_decision {α B : Type} (codec : Codec α B) (d : α) (now : Int)
    (r : Int) (s : CachedState α) (st : Store B)
    (hsync : s.revision = some r)
    (hdue : ∀ t, s.lastChecked = some t → s.checkInterval ≤ now - t) :
    (∀ v, st.rev = some v → v ≤ r →
       Cached.maybePull codec d true now s st =
         ({ s with lastChecked := some now }, st, [StoreOp.getRev], Except.ok ())) ∧
    ((st.rev = none ∨ ∃ v, st.rev = some v ∧ r < v) →
       Cached.maybePull codec d true now s st =
         ((match (Cached.pull codec d true s st).2.2.2 with
           | Except.ok _ => { (Cached.pull codec d true s st).1 with lastChecked := some now }
           | Except.error _ => (Cached.pull codec d true s st).1),
          (Cached.pull codec d true s st).2.1,
          StoreOp.getRev :: (Cached.pull codec d true s st).2.2.1,
          (Cached.pull codec d true s st).2.2.2)) := by
  have hb := maybePull_due codec d true now s st hdue
  constructor
  · intro v hv hle
    rw [hb]
    simp [Cached.maybePullBody, hsync, hv, hle]
  · intro hcase
    rw [hb]
    rcases hcase with h0 | ⟨v, hv, hgt⟩
    · simp [Cached.maybePullBody, hsync, h0, Cached.pullStamp]
    · simp [Cached.maybePullBody, hsync, hv, show ¬ v ≤ r by omega, Cached.pullStamp]

/-- Witness for C3: a local revision 3 checked at time 20 against a store at
revision 3 (stamp and keep) and against a store at revision 4 (full pull and
stamp). -/
theorem C3_staleness_decision_witness :
    (syncState.revision = some 3 ∧ loadedStore.rev = some 3 ∧ aheadStore.rev = some 4) ∧
    Cached.maybePull testCodec sampleData true 20 syncState loadedStore =
      ({ syncState with lastChecked := some 20 }, loadedStore,
       [StoreOp.getRev], Except.ok ()) ∧
    Cached.maybePull testCodec sampleData true 20 syncState aheadStore =
      ((match (Cached.pull testCodec sampleData true syncState aheadStore).2.2.2 with
        | Except.ok _ =>
            { (Cached.pull testCodec sampleData true syncState aheadStore).1 with
                lastChecked := some 20 }
        | Except.error _ => (Cached.pull testCodec sampleData true syncState aheadStore).1),
       (Cached.pull testCodec sampleData true syncState aheadStore).2.1,
       StoreOp.getRev :: (Cached.pull testCodec sampleData true syncState aheadStore).2.2.1,
       (Cached.pull testCodec sampleData true syncState aheadStore).2.2.2) := by
  have hdue : ∀ t, syncState.lastChecked = some t → syncState.checkInterval ≤ 20 - t := by
    intro t ht
    simp [syncState, sampleState, mkCached] at ht ⊢
    omega
  have h1 := (C3_staleness_decision testCodec sampleData 20 3 syncState loadedStore
    rfl hdue).1 3 rfl (by decide)
  have h2 := (C3_staleness_decision testCodec sampleData 20 3 syncState aheadStore
    rfl hdue).2 (Or.inr ⟨4, rfl, by decide⟩)
  exact ⟨⟨rfl, rfl, rfl⟩, h1, h2⟩

/-- Claim C4: when the store is unreachable during the staleness check of a
synchronized instance, the check aborts silently — state, snapshot and store
unchanged, no exception — and a read keeps serving the last known local
snapshot without raising. -/
theorem C4_unavailable_serves_snapshot {α B K V : Type} (codec : Codec α B) (d : α)
    (lookup : α → K → Option V) (now : Int) (key : K) (r : Int) (c : α) (w : V)
    (s : CachedState α) (st : Store B)
    (hsync : s.revision = some r) (hcache : s.cache = some c)
    (hkey : lookup c key = some w) :
    (Cached.maybePull codec d false now s st).1 = s ∧
    (Cached.maybePull codec d false now s st).2.1 = st ∧
    (Cached.maybePull codec d false now s st).2.2.2 = Except.ok () ∧
    (Cached.getitem codec d lookup false now key s st).1 = s ∧
    (Cached.getitem codec d lookup false now key s st).2.1 = st ∧
    (Cached.getitem codec d lookup false now key s st).2.2.2 = Except.ok w := by
  obtain ⟨ops, hmp⟩ := maybePull_unavailable codec d now r s st hsync
  refine ⟨by rw [hmp], by rw [hmp], by rw [hmp], ?_, ?_, ?_⟩ <;>
    · unfold Cached.getitem
      rw [hmp]
      simp [hcache, hkey]

/-- Witness for C4: a read of key "AAPL" on the synchronized sample instance
with the store unreachable. -/
theorem C4_unavailable_serves_snapshot_witness :
    (syncState.revision = some 3 ∧ syncState.cache = some sampleData ∧
     tLookup sampleData "AAPL" = some 100) ∧
    (Cached.maybePull testCodec sampleData false 20 syncState loadedStore).1 = syncState ∧
    (Cached.maybePull testCodec sampleData false 20 syncState loadedStore).2.2.2 =
      Except.ok () ∧
    (Cached.getitem testCodec sampleData tLookup false 20 "AAPL"
      syncState loadedStore).1 = syncState ∧
    (Cached.getitem testCodec sampleData tLookup false 20 "AAPL"
      syncState loadedStore).2.2.2 = Except.ok 100 := by
  have hkey : tLookup sampleData "AAPL" = some 100 := by simp [tLookup, sampleData]
  have h := C4_unavailable_serves_snapshot testCodec sampleData tLookup 20 "AAPL"
    3 sampleData 100 syncState loadedStore rfl rfl hkey
  exact ⟨⟨rfl, rfl, hkey⟩, h.1, h.2.2.1, h.2.2.2.1, h.2.2.2.2.2⟩

/-- Claim C5: once a staleness check has stamped `_last_checked` at time
`t`, every read issued within `_check_interval` of `t` performs no store
round-trip at all and leaves the instance and the store unchanged — so the
staleness check costs at most the single round-trip that produced the stamp
per recheck window, regardless of read frequency. -/
theorem C5_recheck_window {α B K V : Type} (codec : Codec α B) (d : α)
    (lookup : α → K → Option V) (avail : Bool) (t : Int) (reads : List (Int × K))
    (s : CachedState α) (st : Store B)
    (hlast : s.lastChecked = some t)
    (hwin : ∀ p ∈ reads, p.1 - t < s.checkInterval) :
    Cached.getitemFold codec d lookup avail reads s st = (s, st, []) := by
  induction reads with
  | nil => rfl
  | cons p rest ih =>
      have hmp := maybePull_throttled codec d avail p.1 s st t hlast
        (hwin p (by simp))
      have heff := getitem_effects codec d lookup avail p.1 p.2 s st
      rw [hmp] at heff
      have h1 : Cached.getitemFold codec d lookup avail (p :: rest) s st =
          ((Cached.getitemFold codec d lookup avail rest
              (Cached.getitem codec d lookup avail p.1 p.2 s st).1
              (Cached.getitem codec d lookup avail p.1 p.2 s st).2.1).1,
           (Cached.getitemFold codec d lookup avail rest
              (Cached.getitem codec d lookup avail p.1 p.2 s st).1
              (Cached.getitem codec d lookup avail p.1 p.2 s st).2.1).2.1,
           (Cached.getitem codec d lookup avail p.1 p.2 s st).2.2.1 ++
             (Cached.getitemFold codec d lookup avail rest
                (Cached.getitem codec d lookup avail p.1 p.2 s st).1
                (Cached.getitem codec d lookup avail p.1 p.2 s st).2.1).2.2) := rfl
      rw [h1, heff.1, heff.2.1, heff.2.2,
        ih (fun q hq => hwin q (List.mem_cons_of_mem p hq))]
      rfl

/-- Witness for C5: two reads at times 2 and 5 after a stamp at time 0 with
interval 10 touch the store not at all. -/
theorem C5_recheck_window_witness :
    (syncState.lastChecked = some 0 ∧
     ∀ p ∈ [((2 : Int), "AAPL"), ((5 : Int), "MSFT")], p.1 - 0 < syncState.checkInterval) ∧
    Cached.getitemFold testCodec sampleData tLookup true
      [((2 : Int), "AAPL"), ((5 : Int), "MSFT")] syncState loadedStore =
      (syncState, loadedStore, []) := by
  have hwin : ∀ p ∈ [((2 : Int), "AAPL"), ((5 : Int), "MSFT")],
      p.1 - 0 < syncState.checkInterval := by decide
  exact ⟨⟨rfl, hwin⟩, C5_recheck_window testCodec sampleData tLookup true 0
    [((2 : Int), "AAPL"), ((5 : Int), "MSFT")] syncState loadedStore rfl hwin⟩

/-- Claim C6: `purge` deletes both store keys and resets the local revision,
snapshot and last-checked stamp to the unsynchronized state; a subsequent
read on the same instance, with no other writer intervening, runs the
bootstrap path as a first-ever `push` and yields revision 1. -/
theorem C6_purge_resets {α B K V : Type} (codec : Codec α B) (d : α)
    (lookup : α → K → Option V) (now : Int) (key : K)
    (s : CachedState α) (st : Store B) :
    (Cached.purge true s st).1.revision = none ∧
    (Cached.purge true s st).1.cache = none ∧
    (Cached.purge true s st).1.lastChecked = none ∧
    (Cached.purge true s st).2.1.data = none ∧
    (Cached.purge true s st).2.1.rev = none ∧
    (Cached.purge true s st).2.2.2 = Except.ok () ∧
    (Cached.getitem codec d lookup true now key
       (Cached.purge true s st).1 (Cached.purge true s st).2.1).1.revision = some 1 ∧
    (Cached.getitem codec d lookup true now key
       (Cached.purge true s st).1 (Cached.purge true s st).2.1).1.cache = some d ∧
    (Cached.getitem codec d lookup true now key
       (Cached.purge true s st).1 (Cached.purge true s st).2.1).2.1.rev = some 1 := by
  have hread := getitem_effects codec d lookup true now key
    (Cached.purge true s st).1 (Cached.purge true s st).2.1
  have hmp : Cached.maybePull codec d true now
      (Cached.purge true s st).1 (Cached.purge true s st).2.1 =
      Cached.pullStamp codec d true now
        (Cached.purge true s st).1 (Cached.purge true s st).2.1 := by
    simp [Cached.purge, Cached.maybePull, Cached.maybePullBody]
  refine ⟨rfl, rfl, rfl, rfl, rfl, rfl, ?_, ?_, ?_⟩ <;>
    · first
      | rw [hread.1, hmp]
        simp [Cached.purge, Cached.pullStamp, Cached.pull, Cached.push, Store.incrRev]
      | rw [hread.2.1, hmp]
        simp [Cached.purge, Cached.pullStamp, Cached.pull, Cached.push, Store.incrRev]

/-- Setting only `_last_checked` does not affect the snapshot/revision
invariant. -/
theorem stateInv_lastChecked {α : Type} (s : CachedState α) (x : Option Int)
    (h : stateInv s) : stateInv { s with lastChecked := x } := h

/-- `push` preserves the snapshot/revision invariant. -/
theorem push_stateInv {α B : Type} (codec : Codec α B) (d : α) (avail : Bool)
    (s : CachedState α) (st : Store B) (h : stateInv s) :
    stateInv (Cached.push codec d avail s st).1 := by
  cases avail
  · simpa [Cached.push] using h
  · simp [Cached.push, Store.incrRev, stateInv]

/-- `pull` preserves the snapshot/revision invariant. -/
theorem pull_stateInv {α B : Type} (codec : Codec α B) (d : α) (avail : Bool)
    (s : CachedState α) (st : Store B) (h : stateInv s) :
    stateInv (Cached.pull codec d avail s st).1 := by
  cases avail
  · simpa [Cached.pull] using h
  · unfold Cached.pull
    cases hr : st.rev with
    | none => simpa using push_stateInv codec d true s st h
    | some r =>
        cases hd : st.data with
        | none => simpa using h
        | some raw =>
            cases hl : codec.loads raw with
            | error e => simpa [hl] using h
            | ok v => simp [hl, stateInv]

/-- `purge` preserves the snapshot/revision invariant. -/
theorem purge_stateInv {α B : Type} (avail : Bool)
    (s : CachedState α) (st : Store B) (h : stateInv s) :
    stateInv (Cached.purge (B := B) avail s st).1 := by
  cases avail
  · simpa [Cached.purge] using h
  · simp [Cached.purge, stateInv]

/-- The `pull`-then-stamp tail of the staleness check preserves the
snapshot/revision invariant. -/
theorem pullStamp_stateInv {α B : Type} (codec : Codec α B) (d : α) (avail : Bool)
    (now : Int) (s : CachedState α) (st : Store B) (h : stateInv s) :
    stateInv (Cached.pullStamp codec d avail now s st).1 := by
  unfold Cached.pullStamp
  cases hres : (Cached.pull codec d avail s st).2.2.2 with
  | error e => simpa [hres] using pull_stateInv codec d avail s st h
  | ok u =>
      simp only [hres]
      exact stateInv_lastChecked _ _ (pull_stateInv codec d avail s st h)

/-- The staleness check preserves the snapshot/revision invariant. -/
theorem maybePull_stateInv {α B : Type} (codec : Codec α B) (d : α) (avail : Bool)
    (now : Int) (s : CachedState α) (st : Store B) (h : stateInv s) :
    stateInv (Cached.maybePull codec d avail now s st).1 := by
  have hbody : stateInv (Cached.maybePullBody codec d avail now s st).1 := by
    unfold Cached.maybePullBody
    cases hrev : s.revision with
    | none => exact pullStamp_stateInv codec d avail now s st h
    | some r =>
        cases avail
        · simpa using h
        · cases hr : st.rev with
          | none => simpa using pullStamp_stateInv codec d true now s st h
          | some v =>
              by_cases hle : v ≤ r
              · simpa [hle, ← hrev] using stateInv_lastChecked s (some now) h
              · simpa [hle] using pullStamp_stateInv codec d true now s st h
  unfold Cached.maybePull
  cases hl : s.lastChecked with
  | none => exact hbody
  | some t =>
      by_cases hlt : now - t < s.checkInterval
      · simpa [hlt] using h
      · simpa [hlt] using hbody

/-- Claim C7: a freshly constructed instance satisfies the invariant
"`local_snapshot is not None` iff `revision is not None`", and every
operation — `push`, `pull`, `purge`, the staleness check and a read —
preserves it, so it holds after every sequence of operations. -/
theorem C7_snapshot_revision_invariant {α B K V : Type} (codec : Codec α B) (d : α)
    (lookup : α → K → Option V) (avail : Bool) (now : Int) (key : K)
    (name version : String) (interval : Int) :
    stateInv (mkCached α name version interval) ∧
    (∀ (s : CachedState α) (st : Store B), stateInv s →
       stateInv (Cached.push codec d avail s st).1) ∧
    (∀ (s : CachedState α) (st : Store B), stateInv s →
       stateInv (Cached.pull codec d avail s st).1) ∧
    (∀ (s : CachedState α) (st : Store B), stateInv s →
       stateInv (Cached.purge avail s st).1) ∧
    (∀ (s : CachedState α) (st : Store B), stateInv s →
       stateInv (Cached.maybePull codec d avail now s st).1) ∧
    (∀ (s : CachedState α) (st : Store B), stateInv s →
       stateInv (Cached.getitem codec d lookup avail now key s st).1) := by
  refine ⟨by simp [mkCached, stateInv], fun s st h => push_stateInv codec d avail s st h,
    fun s st h => pull_stateInv codec d avail s st h,
    fun s st h => purge_stateInv avail s st h,
    fun s st h => maybePull_stateInv codec d avail now s st h, fun s st h => ?_⟩
  rw [(getitem_effects codec d lookup avail now key s st).1]
  exact maybePull_stateInv codec d avail now s st h

/-- Witness for C7 at the concrete sample instance and empty store. -/
theorem C7_snapshot_revision_invariant_witness :
    stateInv sampleState ∧
    stateInv (Cached.push testCodec sampleData true sampleState emptyStore).1 ∧
    stateInv (Cached.pull testCodec sampleData true sampleState emptyStore).1 ∧
    stateInv (Cached.purge true sampleState emptyStore).1 ∧
    stateInv (Cached.maybePull testCodec sampleData true 0 sampleState emptyStore).1 ∧
    stateInv (Cached.getitem testCodec sampleData tLookup true 0 "AAPL"
      sampleState emptyStore).1 := by
  have h := C7_snapshot_revision_invariant testCodec sampleData tLookup true 0 "AAPL"
    "prices" "v1" 10
  have hs : stateInv sampleState := h.1
  exact ⟨hs, h.2.1 sampleState emptyStore hs, h.2.2.1 sampleState emptyStore hs,
    h.2.2.2.1 sampleState emptyStore hs, h.2.2.2.2.1 sampleState emptyStore hs,
    h.2.2.2.2.2 sampleState emptyStore hs⟩

/-- A view read whose source staleness check is throttled and whose captured
revision differs from the source revision (in particular from the sentinel)
invokes `load(source)` exactly once and captures the source revision. -/
theorem viewRead_recompute {α B β : Type} (codec : Codec α B) (d : α)
    (vload : CachedState α → β) (now t : Int) (v : CacheViewState β)
    (s : CachedState α) (st : Store B)
    (hlast : s.lastChecked = some t) (hlt : now - t < s.checkInterval)
    (hdiff : v.revision ≠ some s.revision) :
    CacheView.maybePull codec d vload true now v s st =
      ({ revision := some s.revision, cache := some (vload s) }, s, st, 1,
       Except.ok ()) := by
  unfold CacheView.maybePull
  rw [maybePull_throttled codec d true now s st t hlast hlt]
  simp [hdiff]

/-- A view read whose source staleness check is throttled and whose captured
revision equals the source revision invokes `load(source)` not at all and
changes nothing. -/
theorem viewRead_cached {α B β : Type} (codec : Codec α B) (d : α)
    (vload : CachedState α → β) (now t : Int) (v : CacheViewState β)
    (s : CachedState α) (st : Store B)
    (hlast : s.lastChecked = some t) (hlt : now - t < s.checkInterval)
    (hcap : v.revision = some s.revision) :
    CacheView.maybePull codec d vload true now v s st = (v, s, st, 0, Except.ok ()) := by
  unfold CacheView.maybePull
  rw [maybePull_throttled codec d true now s st t hlast hlt]
  simp [hcap]

/-- Any number of throttled view reads at an unchanged, already-captured
source revision invoke `load(source)` zero times in total. -/
theorem readFold_stable {α B β : Type} (codec : Codec α B) (d : α)
    (vload : CachedState α → β) (t : Int) (times : List Int) (v : CacheViewState β)
    (s : CachedState α) (st : Store B)
    (hlast : s.lastChecked = some t) (htimes : ∀ τ ∈ times, τ - t < s.checkInterval)
    (hcap : v.revision = some s.revision) :
    CacheView.readFold codec d vload true times v s st = (v, s, st, 0) := by
  induction times with
  | nil => rfl
  | cons τ rest ih =>
      have hstep := viewRead_cached codec d vload τ t v s st hlast
        (htimes τ (by simp)) hcap
      simp only [CacheView.readFold, hstep]
      rw [ih (fun τ2 h2 => htimes τ2 (List.mem_cons_of_mem τ h2))]
      rfl

/-- Claim C8: a Derived View invokes its `load(source)` hook exactly once
per distinct source revision it observes: any nonempty sequence of reads
while the source revision stays fixed invokes `load` once in total (the
first read from the never-computed sentinel recomputes, later reads do
not), and a further read after the source revision advances invokes `load`
exactly once more. -/
theorem C8_view_recompute_once {α B β : Type} (codec : Codec α B) (d d2 : α)
    (vload : CachedState α → β) (t r now2 : Int) (times : List Int)
    (v : CacheViewState β) (s : CachedState α) (st : Store B)
    (hsent : v.revision = none) (hsync : s.revision = some r) (hst : st.rev = some r)
    (hlast : s.lastChecked = some t)
    (htimes : ∀ τ ∈ times, τ - t < s.checkInterval) (hne : times ≠ [])
    (hnow2 : now2 - t < s.checkInterval) :
    (CacheView.readFold codec d vload true times v s st).2.2.2 = 1 ∧
    (CacheView.maybePull codec d vload true now2
       (CacheView.readFold codec d vload true times v s st).1
       (Cached.push codec d2 true
         (CacheView.readFold codec d vload true times v s st).2.1
         (CacheView.readFold codec d vload true times v s st).2.2.1).1
       (Cached.push codec d2 true
         (CacheView.readFold codec d vload true times v s st).2.1
         (CacheView.readFold codec d vload true times v s st).2.2.1).2.1).2.2.2.1 = 1 := by
  obtain ⟨τ, rest, rfl⟩ := List.exists_cons_of_ne_nil hne
  have hstep := viewRead_recompute codec d vload τ t v s st hlast (htimes τ (by simp))
    (by rw [hsent]; exact fun h => Option.noConfusion h)
  have hfold : CacheView.readFold codec d vload true (τ :: rest) v s st =
      ({ revision := some s.revision, cache := some (vload s) }, s, st, 1) := by
    simp only [CacheView.readFold, hstep]
    rw [readFold_stable codec d vload t rest _ s st hlast
      (fun τ2 h2 => htimes τ2 (List.mem_cons_of_mem τ h2)) rfl]
    rfl
  refine ⟨by rw [hfold], ?_⟩
  rw [hfold]
  have hps : (Cached.push codec d2 true s st).1.revision = some (r + 1) := by
    have h2 := (push_rev codec d2 s st).2
    rw [hst] at h2
    simpa using h2
  have hlast2 : (Cached.push codec d2 true s st).1.lastChecked = some t := by
    simp [Cached.push, hlast]
  have hint2 : (Cached.push codec d2 true s st).1.checkInterval = s.checkInterval := by
    simp [Cached.push]
  unfold CacheView.maybePull
  rw [maybePull_throttled codec d true now2 _ _ t hlast2 (by rw [hint2]; exact hnow2)]
  simp [hps, hsync]

/-- Witness for C8: three reads of a fresh view over the synchronized sample
instance compute once; after a push the next read computes once more. -/
theorem C8_view_recompute_once_witness :
    ((mkCacheView (Option TVal)).revision = none ∧ syncState.revision = some 3 ∧
     loadedStore.rev = some 3 ∧ syncState.lastChecked = some 0) ∧
    (CacheView.readFold testCodec sampleData (fun s2 => s2.cache) true [1, 2, 3]
       (mkCacheView (Option TVal)) syncState loadedStore).2.2.2 = 1 ∧
    (CacheView.maybePull testCodec sampleData (fun s2 => s2.cache) true 5
       (CacheView.readFold testCodec sampleData (fun s2 => s2.cache) true [1, 2, 3]
         (mkCacheView (Option TVal)) syncState loadedStore).1
       (Cached.push testCodec sampleData true
         (CacheView.readFold testCodec sampleData (fun s2 => s2.cache) true [1, 2, 3]
           (mkCacheView (Option TVal)) syncState loadedStore).2.1
         (CacheView.readFold testCodec sampleData (fun s2 => s2.cache) true [1, 2, 3]
           (mkCacheView (Option TVal)) syncState loadedStore).2.2.1).1
       (Cached.push testCodec sampleData true
         (CacheView.readFold testCodec sampleData (fun s2 => s2.cache) true [1, 2, 3]
           (mkCacheView (Option TVal)) syncState loadedStore).2.1
         (CacheView.readFold testCodec sampleData (fun s2 => s2.cache) true [1, 2, 3]
           (mkCacheView (Option TVal)) syncState loadedStore).2.2.1).2.1).2.2.2.1 = 1 := by
  have h := C8_view_recompute_once testCodec sampleData sampleData
    (fun s2 => s2.cache) 0 3 5 [1, 2, 3] (mkCacheView (Option TVal)) syncState
    loadedStore rfl rfl rfl rfl (by decide) (by simp) (by decide)
  exact ⟨⟨rfl, rfl, rfl, rfl⟩, h.1, h.2⟩

/-- A descriptor access on an instance already holding a view returns that
stored view without constructing or mutating anything. -/
theorem descriptorGet_stored {β : Type} (v : ViewObj β) (o : OwnerState β)
    (h : o.viewSlot = some v) : ViewDescriptor.get o = (v, o, false) := by
  simp [ViewDescriptor.get, h]

/-- All repeated descriptor accesses on an instance already holding a view
return that view and leave the instance unchanged. -/
theorem getIter_stable {β : Type} (v : ViewObj β) (o : OwnerState β)
    (h : o.viewSlot = some v) : ∀ k, ViewDescriptor.getIter o k = (v, o) := by
  intro k
  induction k with
  | zero => simp [ViewDescriptor.getIter, descriptorGet_stored v o h]
  | succ n ih => simp [ViewDescriptor.getIter, descriptorGet_stored v o h, ih]

/-- Claim C9: the first descriptor access on an owning instance constructs a
Derived View bound to that instance and stores it on the instance; every
later access returns that identical view object without constructing
another; two different owning instances obtain independent view objects,
each bound to its own instance. -/
theorem C9_view_attachment {β : Type} (o o2 : OwnerState β)
    (hempty : o.viewSlot = none) (hempty2 : o2.viewSlot = none)
    (hne : o.id ≠ o2.id) :
    (ViewDescriptor.get o).2.2 = true ∧
    (ViewDescriptor.get o).1.boundTo = o.id ∧
    (ViewDescriptor.get o).2.1.viewSlot = some (ViewDescriptor.get o).1 ∧
    (∀ k, ViewDescriptor.getIter (ViewDescriptor.get o).2.1 k =
       ((ViewDescriptor.get o).1, (ViewDescriptor.get o).2.1)) ∧
    (ViewDescriptor.get (ViewDescriptor.get o).2.1).2.2 = false ∧
    (ViewDescriptor.get o2).1.boundTo = o2.id ∧
    (ViewDescriptor.get o2).1 ≠ (ViewDescriptor.get o).1 := by
  have hget : ViewDescriptor.get o =
      ({ boundTo := o.id, state := mkCacheView β },
       { o with viewSlot := some { boundTo := o.id, state := mkCacheView β } }, true) := by
    simp [ViewDescriptor.get, hempty]
  have hget2 : ViewDescriptor.get o2 =
      ({ boundTo := o2.id, state := mkCacheView β },
       { o2 with viewSlot := some { boundTo := o2.id, state := mkCacheView β } }, true) := by
    simp [ViewDescriptor.get, hempty2]
  refine ⟨by rw [hget], by rw [hget], by rw [hget], ?_, ?_, by rw [hget2], ?_⟩
  · intro k
    rw [hget]
    exact getIter_stable { boundTo := o.id, state := mkCacheView β }
      { o with viewSlot := some { boundTo := o.id, state := mkCacheView β } } rfl k
  · rw [hget]
    exact congrArg (fun p => p.2.2)
      (descriptorGet_stored { boundTo := o.id, state := mkCacheView β }
        { o with viewSlot := some { boundTo := o.id, state := mkCacheView β } } rfl)
  · rw [hget, hget2]
    intro h
    exact hne (congrArg ViewObj.boundTo h).symm

/-- Witness for C9 at two concrete owning instances with empty slots. -/
theorem C9_view_attachment_witness :
    (({ id := 0, viewSlot := none } : OwnerState Nat).viewSlot = none ∧
     ({ id := 1, viewSlot := none } : OwnerState Nat).viewSlot = none ∧
     (0 : Nat) ≠ 1) ∧
    (ViewDescriptor.get ({ id := 0, viewSlot := none } : OwnerState Nat)).2.2 = true ∧
    (ViewDescriptor.get
       (ViewDescriptor.get ({ id := 0, viewSlot := none } : OwnerState Nat)).2.1).2.2 =
      false ∧
    (ViewDescriptor.get ({ id := 1, viewSlot := none } : OwnerState Nat)).1 ≠
      (ViewDescriptor.get ({ id := 0, viewSlot := none } : OwnerState Nat)).1 := by
  have h := C9_view_attachment ({ id := 0, viewSlot := none } : OwnerState Nat)
    ({ id := 1, viewSlot := none } : OwnerState Nat) rfl rfl (by decide)
  exact ⟨⟨rfl, rfl, by decide⟩, h.1, h.2.2.2.2.1, h.2.2.2.2.2.2⟩

/-- Claim C10: `pull` is atomic with respect to deserialization failure —
when the revision key is present but unpickling the fetched data payload
raises, the instance state (in particular the local revision and snapshot)
is left exactly as it was before the pull. -/
theorem C10_pull_deserialize_atomic {α B : Type} (codec : Codec α B) (d : α) (r : Int)
    (raw : B) (s : CachedState α) (st : Store B)
    (hrev : st.rev = some r) (hdata : st.data = some raw)
    (hfail : codec.loads raw = Except.error ()) :
    Cached.pull codec d true s st =
      (s, st, [StoreOp.getRev, StoreOp.getData],
       Except.error CacheError.unpickleError) := by
  simp [Cached.pull, hrev, hdata, hfail]

/-- Witness for C10: a pull of the corrupt payload leaves the synchronized
sample instance untouched. -/
theorem C10_pull_deserialize_atomic_witness :
    (corruptStore.rev = some 3 ∧ corruptStore.data = some none ∧
     testCodec.loads none = Except.error ()) ∧
    Cached.pull testCodec sampleData true syncState corruptStore =
      (syncState, corruptStore, [StoreOp.getRev, StoreOp.getData],
       Except.error CacheError.unpickleError) := by
  exact ⟨⟨rfl, rfl, rfl⟩, C10_pull_deserialize_atomic testCodec sampleData 3 none
    syncState corruptStore rfl rfl rfl⟩

end CachedCollections
